import Mathlib

/-!
A shallow embedding of the shared-memory ring-buffer producer/consumer
benchmark (`IPC_LINUX.c`, with the Windows variant `IPC.c` agreeing on every
modelled operation).  A coordinator process produces `n` records into a
1024-slot circular buffer guarded by two counting semaphores (`empty`,
`full`) and, in safe mode, a binary semaphore used as a mutex; a forked
consumer dequeues `n` records, measures latency, and audits the received
ids for missing/duplicated entries.

The embedding models each shared-memory statement of the two loop bodies as
one atomic transition of a two-process state machine, with machine integers
carried as `Nat` reduced by the relevant modulus where overflow is possible
(`uint32` record ids, the `uint8` audit counters).  Timing values returned
by `now_us()` are nondeterministic parameters of the transitions that read
the clock; no claim depends on their values.
-/

namespace IPC

/-- Ring capacity, `RING_CAP` in both sources. -/
def RING_CAP : Nat := 1024

/-- Modulus of a `uint32_t` field. -/
def U32 : Nat := 4294967296

/-- Modulus of a `uint64_t` field. -/
def U64 : Nat := 18446744073709551616

/-- Transaction type names, the `types[]` table in `main`. -/
def typeName : Nat → String
  | 0 => "Transfer"
  | 1 => "Inquiry"
  | 2 => "BillPay"
  | 3 => "Fraud"
  | _ => "Logging"

/-- One record of the channel, struct `TxMsg` in both sources. -/
structure TxMsg where
  tx_id : Nat
  type : Nat
  amount_pence : Nat
  t_send_us : Nat
  payload : String
  deriving DecidableEq

/-- The all-zero record: the ring storage is zero-filled (`memset` /
`ZeroMemory`) right after creation. -/
def zeroMsg : TxMsg :=
  { tx_id := 0, type := 0, amount_pence := 0, t_send_us := 0, payload := "" }

/-- Payload text, `snprintf(msg.payload, 64, "HL_TX_%u %s", msg.tx_id,
types[msg.type])`; `snprintf` keeps at most 63 characters plus the NUL. -/
def mkPayload (msgid k : Nat) : String :=
  ("HL_TX_" ++ toString msgid ++ " " ++ typeName k).take 63

/-- The record built by the producer in loop iteration `i` (0-based), with
`t` the value `now_us()` returns at the stamping instant.  Field for field
from the producer loop body of `main`:
`tx_id = (uint32_t)(i + 1)`, `type = (uint32_t)(i % 5)`,
`amount_pence = (uint64_t)(1000 + (i % 500)) * 100`, `t_send_us = now_us()`. -/
def mkMsg (i t : Nat) : TxMsg :=
  { tx_id := (i + 1) % U32
    type := i % 5
    amount_pence := ((1000 + i % 500) * 100) % U64
    t_send_us := t % U64
    payload := mkPayload ((i + 1) % U32) (i % 5) }

/-- The atomic actions of one iteration of the producer loop, in the
vocabulary of the spec's Enqueue operation. -/
inductive EnqAction where
  | metricStart
  | waitEmpty
  | waitMutex
  | stampSendTime
  | writeSlot
  | advanceHead
  | postMutex
  | postFull
  | metricEnd
  deriving DecidableEq

/-- The order of the actions in one iteration of the producer loop, read
off the source: `t0 = now_us()`, `sem_wait(sem_empty)`,
`sem_wait(sem_mutex)` (safe mode), build `msg` with
`msg.t_send_us = now_us()`, `ring->buf[ring->head] = msg`,
`ring->head = (ring->head + 1) % RING_CAP`, `sem_post(sem_mutex)` (safe
mode), `sem_post(sem_full)`, `t1 = now_us()`. -/
def enqueueOrder : List EnqAction :=
  [.metricStart, .waitEmpty, .waitMutex, .stampSendTime, .writeSlot,
   .advanceHead, .postMutex, .postFull, .metricEnd]

/-- One audit observation: `if (msg.tx_id >= 1 && msg.tx_id <= (uint32_t)n)
seen[msg.tx_id] += 1;` where `seen` is a `calloc`ed array of `uint8_t`, so
the increment wraps modulo 256. -/
def auditInsert (n : Nat) (seen : Nat → Nat) (id : Nat) : Nat → Nat :=
  if 1 ≤ id ∧ id ≤ n then Function.update seen id ((seen id + 1) % 256) else seen

/-- The `seen` counters after a list of observed ids, starting from the
zeroed (`calloc`) array. -/
def auditSeen (n : Nat) (ids : List Nat) : Nat → Nat :=
  ids.foldl (auditInsert n) (fun _ => 0)

/-- The reconciliation loop that computes `(missing, duplicates)`:
`for (id = 1; id <= n; id++) { if (seen[id] == 0) missing++;
if (seen[id] > 1) duplicates += (seen[id] - 1); }`. -/
def auditTotals (n : Nat) (seen : Nat → Nat) : Nat × Nat :=
  (List.range' 1 n).foldl
    (fun mc id =>
      (if seen id = 0 then mc.1 + 1 else mc.1,
       if 1 < seen id then mc.2 + (seen id - 1) else mc.2))
    (0, 0)

/-- The named IPC objects the coordinator creates during setup. -/
inductive Resource where
  | segment
  | semEmptyName
  | semFullName
  | semMutexName
  deriving DecidableEq

/-- Observable outcome of the coordinator's startup sequence. -/
structure StartOutcome where
  exitCode : Nat
  reportedInputError : Bool
  created : List Resource
  deriving DecidableEq

/-- Startup of the coordinator `main`, from reading the transaction count to
creating the named IPC objects.  `input` is the result of `scanf("%d", &n)`:
`none` when `scanf` does not return 1, otherwise the integer read.  The
validity test `scanf(...) != 1 || n <= 0` precedes every `shm_open` /
`sem_open` (`CreateFileMappingW` / `CreateSemaphoreW`) call, so on the error
branch nothing has been created; on success the segment and the semaphores
are created in source order (the mutex only in safe mode).  Creation
failures (`ResourceError`) abort with exit code 1 as well but are outside
this model, which assumes the creations succeed. -/
def mainStart (safe : Bool) (input : Option Int) : StartOutcome :=
  match input with
  | none => { exitCode := 1, reportedInputError := true, created := [] }
  | some n =>
    if n ≤ 0 then { exitCode := 1, reportedInputError := true, created := [] }
    else
      { exitCode := 0
        reportedInputError := false
        created := [.segment, .semEmptyName, .semFullName] ++
          (if safe then [.semMutexName] else []) }

/-- Struct `Ring`: two cursors and the slot array, in shared memory. -/
structure Ring where
  head : Nat
  tail : Nat
  buf : Nat → TxMsg

/-- Producer-local control state: completed iterations and the program
counter inside the current iteration (0 = before `sem_wait(empty)`,
1 = after it, 2 = after the mutex wait, 3 = after the slot write,
4 = after the head advance, 5 = after the mutex post). -/
structure PState where
  iter : Nat
  pc : Nat

/-- Consumer-local control state: completed iterations, program counter
(0 = before `sem_wait(full)`, 1 = after it, 2 = after the mutex wait,
3 = after the slot read, 4 = after the tail advance, 5 = after the mutex
post, 6 = after `sem_post(empty)`), the local copy `msg`, and the
`calloc`ed `seen` audit array. -/
structure CState where
  iter : Nat
  pc : Nat
  msg : TxMsg
  seen : Nat → Nat

/-- The whole two-process configuration: the shared ring, the values of the
three named semaphores, and the two processes' local states. -/
structure Sys where
  ring : Ring
  semEmpty : Nat
  semFull : Nat
  semMutex : Nat
  prod : PState
  cons : CState

/-- State after setup: zero-filled ring, `sem_empty` created with value
`RING_CAP`, `sem_full` with value 0, the mutex with value 1 (created only in
safe mode; its value is never consulted in unsafe mode), both loops at their
start, `seen` zeroed by `calloc`. -/
def initSys (safe : Bool) : Sys :=
  { ring := { head := 0, tail := 0, buf := fun _ => zeroMsg }
    semEmpty := RING_CAP
    semFull := 0
    semMutex := if safe then 1 else 0
    prod := { iter := 0, pc := 0 }
    cons := { iter := 0, pc := 0, msg := zeroMsg, seen := fun _ => 0 } }

/-- One atomic step of the producer loop of `main`.  Each constructor is one
statement touching shared state; `t` in `write` is the nondeterministic
`now_us()` value stamped into the record.  In unsafe mode the two mutex
statements are compiled out (`if (!g_unsafe)`), modelled as steps that leave
the state of the mutex unchanged. -/
inductive PStep (safe : Bool) (n : Nat) : Sys → Sys → Prop
  | waitEmpty (s : Sys) (hpc : s.prod.pc = 0) (hit : s.prod.iter < n)
      (hv : 0 < s.semEmpty) :
      PStep safe n s
        { s with semEmpty := s.semEmpty - 1, prod := { s.prod with pc := 1 } }
  | waitMutex (s : Sys) (hpc : s.prod.pc = 1) (hv : safe = true → 0 < s.semMutex) :
      PStep safe n s
        { s with semMutex := if safe then s.semMutex - 1 else s.semMutex,
                 prod := { s.prod with pc := 2 } }
  | write (s : Sys) (t : Nat) (hpc : s.prod.pc = 2) :
      PStep safe n s
        { s with ring := { s.ring with
                   buf := Function.update s.ring.buf s.ring.head (mkMsg s.prod.iter t) },
                 prod := { s.prod with pc := 3 } }
  | advanceHead (s : Sys) (hpc : s.prod.pc = 3) :
      PStep safe n s
        { s with ring := { s.ring with head := (s.ring.head + 1) % RING_CAP },
                 prod := { s.prod with pc := 4 } }
  | postMutex (s : Sys) (hpc : s.prod.pc = 4) :
      PStep safe n s
        { s with semMutex := if safe then s.semMutex + 1 else s.semMutex,
                 prod := { s.prod with pc := 5 } }
  | postFull (s : Sys) (hpc : s.prod.pc = 5) :
      PStep safe n s
        { s with semFull := s.semFull + 1,
                 prod := { iter := s.prod.iter + 1, pc := 0 } }

/-- One atomic step of the consumer loop (`consumer_process` / `run_child`).
The audit statement runs after `sem_post(empty)`, at the end of the loop
body, exactly as in the source. -/
inductive CStep (safe : Bool) (n : Nat) : Sys → Sys → Prop
  | waitFull (s : Sys) (hpc : s.cons.pc = 0) (hit : s.cons.iter < n)
      (hv : 0 < s.semFull) :
      CStep safe n s
        { s with semFull := s.semFull - 1, cons := { s.cons with pc := 1 } }
  | waitMutex (s : Sys) (hpc : s.cons.pc = 1) (hv : safe = true → 0 < s.semMutex) :
      CStep safe n s
        { s with semMutex := if safe then s.semMutex - 1 else s.semMutex,
                 cons := { s.cons with pc := 2 } }
  | read (s : Sys) (hpc : s.cons.pc = 2) :
      CStep safe n s
        { s with cons := { s.cons with msg := s.ring.buf s.ring.tail, pc := 3 } }
  | advanceTail (s : Sys) (hpc : s.cons.pc = 3) :
      CStep safe n s
        { s with ring := { s.ring with tail := (s.ring.tail + 1) % RING_CAP },
                 cons := { s.cons with pc := 4 } }
  | postMutex (s : Sys) (hpc : s.cons.pc = 4) :
      CStep safe n s
        { s with semMutex := if safe then s.semMutex + 1 else s.semMutex,
                 cons := { s.cons with pc := 5 } }
  | postEmpty (s : Sys) (hpc : s.cons.pc = 5) :
      CStep safe n s
        { s with semEmpty := s.semEmpty + 1, cons := { s.cons with pc := 6 } }
  | audit (s : Sys) (hpc : s.cons.pc = 6) :
      CStep safe n s
        { s with cons :=
                 { s.cons with
                   iter := s.cons.iter + 1
                   pc := 0
                   seen := auditInsert n s.cons.seen s.cons.msg.tx_id } }

/-- An interleaving step: either process moves. -/
inductive Step (safe : Bool) (n : Nat) : Sys → Sys → Prop
  | prodStep {s s' : Sys} : PStep safe n s s' → Step safe n s s'
  | consStep {s s' : Sys} : CStep safe n s s' → Step safe n s s'

/-- States reachable from the post-setup state under some interleaving. -/
def Reachable (safe : Bool) (n : Nat) (s : Sys) : Prop :=
  Relation.ReflTransGen (Step safe n) (initSys safe) s

/-- The bounded-buffer invariant of the protocol.  Writing `EW`, `W`, `IH`,
`PF` for the producer's completed `sem_wait(empty)`, slot-write,
head-advance and `sem_post(full)` counts and `FW`, `R`, `IT`, `ER` for the
consumer's completed `sem_wait(full)`, slot-read, tail-advance and
`sem_post(empty)` counts (each recoverable from the iteration counter and
the program counter), it states: `semEmpty = RING_CAP - EW + ER`,
`semFull = PF - FW`, `head = IH % RING_CAP`, `tail = IT % RING_CAP`, the
last `RING_CAP` written slots still hold their records, the consumer's
local record is the one of its current iteration, and the audit counters
record each consumed id exactly once.  The mutex plays no part: for this
single-producer/single-consumer topology the semaphores alone give safety,
which is why the invariant (hence the audit result) holds in unsafe mode as
well at this statement-level atomicity. -/
structure Inv (n : Nat) (s : Sys) : Prop where
  ppcLe : s.prod.pc ≤ 5
  cpcLe : s.cons.pc ≤ 6
  pIterLe : s.prod.iter ≤ n
  pMid : 1 ≤ s.prod.pc → s.prod.iter < n
  cIterLe : s.cons.iter ≤ n
  cMid : 1 ≤ s.cons.pc → s.cons.iter < n
  emptyEq : s.semEmpty + s.prod.iter + (if 1 ≤ s.prod.pc then 1 else 0)
      = RING_CAP + s.cons.iter + (if 6 ≤ s.cons.pc then 1 else 0)
  fullEq : s.semFull + s.cons.iter + (if 1 ≤ s.cons.pc then 1 else 0) = s.prod.iter
  headEq : s.ring.head = (s.prod.iter + (if 4 ≤ s.prod.pc then 1 else 0)) % RING_CAP
  tailEq : s.ring.tail = (s.cons.iter + (if 4 ≤ s.cons.pc then 1 else 0)) % RING_CAP
  bufInv : ∀ j, j < s.prod.iter + (if 3 ≤ s.prod.pc then 1 else 0) →
      s.prod.iter + (if 3 ≤ s.prod.pc then 1 else 0) ≤ j + RING_CAP →
      (s.ring.buf (j % RING_CAP)).tx_id = j + 1
  msgEq : 3 ≤ s.cons.pc → s.cons.msg.tx_id = s.cons.iter + 1
  seenEq : ∀ id, s.cons.seen id = if 1 ≤ id ∧ id ≤ s.cons.iter then 1 else 0

/-- States of the complete safe-mode run with `n = 1` in the schedule that
runs the whole Enqueue first and then the whole Dequeue; used to exhibit
concrete reachable states.  `w1`: after `sem_wait(empty)`. -/
def w1 : Sys :=
  { initSys true with semEmpty := (initSys true).semEmpty - 1
                      prod := { (initSys true).prod with pc := 1 } }

/-- After the producer's `sem_wait(mutex)`. -/
def w2 : Sys :=
  { w1 with semMutex := w1.semMutex - 1, prod := { w1.prod with pc := 2 } }

/-- After the slot write (with `now_us()` returning 0). -/
def w3 : Sys :=
  { w2 with ring := { w2.ring with
              buf := Function.update w2.ring.buf w2.ring.head (mkMsg 0 0) }
            prod := { w2.prod with pc := 3 } }

/-- After the head advance. -/
def w4 : Sys :=
  { w3 with ring := { w3.ring with head := (w3.ring.head + 1) % RING_CAP }
            prod := { w3.prod with pc := 4 } }

/-- After the producer's `sem_post(mutex)`. -/
def w5 : Sys :=
  { w4 with semMutex := w4.semMutex + 1, prod := { w4.prod with pc := 5 } }

/-- After `sem_post(full)`: the producer's single Enqueue is complete. -/
def w6 : Sys :=
  { w5 with semFull := w5.semFull + 1, prod := { iter := 1, pc := 0 } }

/-- After the consumer's `sem_wait(full)`. -/
def w7 : Sys :=
  { w6 with semFull := w6.semFull - 1, cons := { w6.cons with pc := 1 } }

/-- After the consumer's `sem_wait(mutex)`. -/
def w8 : Sys :=
  { w7 with semMutex := w7.semMutex - 1, cons := { w7.cons with pc := 2 } }

/-- After the slot read. -/
def w9 : Sys :=
  { w8 with cons := { w8.cons with msg := w8.ring.buf w8.ring.tail, pc := 3 } }

/-- After the tail advance. -/
def w10 : Sys :=
  { w9 with ring := { w9.ring with tail := (w9.ring.tail + 1) % RING_CAP }
            cons := { w9.cons with pc := 4 } }

/-- After the consumer's `sem_post(mutex)`. -/
def w11 : Sys :=
  { w10 with semMutex := w10.semMutex + 1, cons := { w10.cons with pc := 5 } }

/-- After `sem_post(empty)`. -/
def w12 : Sys :=
  { w11 with semEmpty := w11.semEmpty + 1, cons := { w11.cons with pc := 6 } }

/-- After the audit statement: both processes have completed their run. -/
def w13 : Sys :=
  { w12 with cons :=
             { w12.cons with
               iter := 1
               pc := 0
               seen := auditInsert 1 w12.cons.seen w12.cons.msg.tx_id } }

/-- A record whose id 99 lies outside `[1, n]` for small `n`, as unsafe-mode
corruption can produce. -/
def oorMsg : TxMsg := { zeroMsg with tx_id := 99 }

/-- A consumer configuration about to run the audit statement on the
out-of-range record `oorMsg`. -/
def c6state : Sys :=
  { initSys true with cons := { iter := 0, pc := 6, msg := oorMsg, seen := fun _ => 0 } }

/-- The configuration after that audit statement. -/
def c6stateNext : Sys :=
  { c6state with cons :=
                 { c6state.cons with
                   iter := 1
                   pc := 0
                   seen := auditInsert 1 c6state.cons.seen c6state.cons.msg.tx_id } }

/-- A consumer configuration about to execute the slot read. -/
def c9cons : Sys :=
  { initSys true with cons := { iter := 0, pc := 2, msg := zeroMsg, seen := fun _ => 0 } }

/-- The configuration after that slot read. -/
def c9consNext : Sys :=
  { c9cons with cons := { c9cons.cons with msg := c9cons.ring.buf c9cons.ring.tail, pc := 3 } }

theorem RING_CAP_eq : RING_CAP = 1024 := rfl

/-- The invariant holds in the post-setup state. -/
theorem inv_init (safe : Bool) (n : Nat) : Inv n (initSys safe) := by
  refine ⟨?_, ?_, ?_, ?_, ?_, ?_, ?_, ?_, ?_, ?_, ?_, ?_, ?_⟩ <;>
    simp [initSys, zeroMsg]
  intro id
  split_ifs with h
  · omega
  · rfl

/-- Every producer step preserves the invariant. -/
theorem inv_pstep {safe : Bool} {n : Nat} {s s' : Sys} (hn : n < 2 ^ 31)
    (hi : Inv n s) (h : PStep safe n s s') : Inv n s' := by
  obtain ⟨h1, h2, h3, h4, h5, h6, h7, h8, h9, h10, h11, h12, h13⟩ := hi
  cases h with
  | waitEmpty hpc hit hv =>
    rw [hpc] at h7 h9 h11
    refine ⟨by simp, h2, h3, fun _ => hit, h5, h6, ?_, h8, ?_, h10, ?_, h12, h13⟩
    · simp at h7 ⊢
      omega
    · simpa using h9
    · simpa using h11
  | waitMutex hpc hv =>
    rw [hpc] at h7 h9 h11
    have hlt : s.prod.iter < n := h4 (by omega)
    refine ⟨by simp, h2, h3, fun _ => hlt, h5, h6, ?_, h8, ?_, h10, ?_, h12, h13⟩
    · simp at h7 ⊢
      omega
    · simpa using h9
    · simpa using h11
  | write t hpc =>
    rw [hpc] at h7 h9 h11
    have hlt : s.prod.iter < n := h4 (by omega)
    refine ⟨by simp, h2, h3, fun _ => hlt, h5, h6, ?_, h8, ?_, h10, ?_, h12, h13⟩
    · simp at h7 ⊢
      omega
    · simpa using h9
    · simp only [RING_CAP_eq] at h9 h11 ⊢
      simp at h9 h11 ⊢
      intro j hj1 hj2
      rcases Nat.lt_succ_iff_lt_or_eq.mp hj1 with hj | hj
      · have hne : j % 1024 ≠ s.prod.iter % 1024 := by omega
        rw [h9, Function.update_noteq hne]
        exact h11 j hj (by omega)
      · subst hj
        rw [h9, Function.update_same]
        simp [mkMsg, U32]
        omega
  | advanceHead hpc =>
    rw [hpc] at h7 h9 h11
    have hlt : s.prod.iter < n := h4 (by omega)
    refine ⟨by simp, h2, h3, fun _ => hlt, h5, h6, ?_, h8, ?_, h10, ?_, h12, h13⟩
    · simp at h7 ⊢
      omega
    · simp only [RING_CAP_eq] at h9 ⊢
      simp at h9 ⊢
      omega
    · simpa using h11
  | postMutex hpc =>
    rw [hpc] at h7 h9 h11
    have hlt : s.prod.iter < n := h4 (by omega)
    refine ⟨by simp, h2, h3, fun _ => hlt, h5, h6, ?_, h8, ?_, h10, ?_, h12, h13⟩
    · simp at h7 ⊢
      omega
    · simpa using h9
    · simpa using h11
  | postFull hpc =>
    rw [hpc] at h7 h9 h11
    have hlt : s.prod.iter < n := h4 (by omega)
    refine ⟨by simp, h2, by simpa using hlt, by simp, h5, h6, ?_, ?_, ?_, h10, ?_, h12, h13⟩
    · simp at h7 ⊢
      omega
    · simp at h8 ⊢
      omega
    · simp at h9 ⊢
      omega
    · simpa using h11

/-- Every consumer step preserves the invariant. -/
theorem inv_cstep {safe : Bool} {n : Nat} {s s' : Sys} (hn : n < 2 ^ 31)
    (hi : Inv n s) (h : CStep safe n s s') : Inv n s' := by
  obtain ⟨h1, h2, h3, h4, h5, h6, h7, h8, h9, h10, h11, h12, h13⟩ := hi
  cases h with
  | waitFull hpc hit hv =>
    rw [hpc] at h7 h8 h10
    refine ⟨h1, by simp, h3, h4, h5, fun _ => hit, ?_, ?_, h9, ?_, h11, by simp, h13⟩
    · simp at h7 ⊢
      omega
    · simp at h8 ⊢
      omega
    · simpa using h10
  | waitMutex hpc hv =>
    rw [hpc] at h7 h8 h10
    have hlt : s.cons.iter < n := h6 (by omega)
    refine ⟨h1, by simp, h3, h4, h5, fun _ => hlt, ?_, ?_, h9, ?_, h11, by simp, h13⟩
    · simp at h7 ⊢
      omega
    · simp at h8 ⊢
      omega
    · simpa using h10
  | read hpc =>
    rw [hpc] at h7 h8 h10
    simp at h7 h8 h10
    have hlt : s.cons.iter < n := h6 (by omega)
    refine ⟨h1, by simp, h3, h4, h5, fun _ => hlt, ?_, ?_, h9, ?_, h11, ?_, h13⟩
    · simp
      omega
    · simp
      omega
    · simpa using h10
    · intro _
      have hm : (if 3 ≤ s.prod.pc then (1 : Nat) else 0) ≤ (if 1 ≤ s.prod.pc then 1 else 0) := by
        by_cases hp3 : 3 ≤ s.prod.pc
        · have hp1 : 1 ≤ s.prod.pc := by omega
          simp [hp3, hp1]
        · by_cases hp1 : 1 ≤ s.prod.pc <;> simp [hp3, hp1]
      have htail : s.ring.tail = s.cons.iter % RING_CAP := h10
      show (s.ring.buf s.ring.tail).tx_id = s.cons.iter + 1
      rw [htail]
      exact h11 s.cons.iter (by omega) (by omega)
  | advanceTail hpc =>
    rw [hpc] at h7 h8 h10 h12
    have hlt : s.cons.iter < n := h6 (by omega)
    have hmsg : s.cons.msg.tx_id = s.cons.iter + 1 := h12 (by omega)
    refine ⟨h1, by simp, h3, h4, h5, fun _ => hlt, ?_, ?_, h9, ?_, h11, fun _ => hmsg, h13⟩
    · simp at h7 ⊢
      omega
    · simp at h8 ⊢
      omega
    · simp only [RING_CAP_eq] at h10 ⊢
      simp at h10 ⊢
      omega
  | postMutex hpc =>
    rw [hpc] at h7 h8 h10 h12
    have hlt : s.cons.iter < n := h6 (by omega)
    have hmsg : s.cons.msg.tx_id = s.cons.iter + 1 := h12 (by omega)
    refine ⟨h1, by simp, h3, h4, h5, fun _ => hlt, ?_, ?_, h9, ?_, h11, fun _ => hmsg, h13⟩
    · simp at h7 ⊢
      omega
    · simp at h8 ⊢
      omega
    · simpa using h10
  | postEmpty hpc =>
    rw [hpc] at h7 h8 h10 h12
    have hlt : s.cons.iter < n := h6 (by omega)
    have hmsg : s.cons.msg.tx_id = s.cons.iter + 1 := h12 (by omega)
    refine ⟨h1, by simp, h3, h4, h5, fun _ => hlt, ?_, ?_, h9, ?_, h11, fun _ => hmsg, h13⟩
    · simp at h7 ⊢
      omega
    · simp at h8 ⊢
      omega
    · simpa using h10
  | audit hpc =>
    rw [hpc] at h7 h8 h10 h12
    have hlt : s.cons.iter < n := h6 (by omega)
    have hmsg : s.cons.msg.tx_id = s.cons.iter + 1 := h12 (by omega)
    refine ⟨h1, by simp, h3, h4, by simp; omega, by simp, ?_, ?_, h9, ?_, h11, by simp, ?_⟩
    · simp at h7 ⊢
      omega
    · simp at h8 ⊢
      omega
    · simp at h10 ⊢
      exact h10
    · intro id
      show auditInsert n s.cons.seen s.cons.msg.tx_id id
          = if 1 ≤ id ∧ id ≤ s.cons.iter + 1 then 1 else 0
      rw [auditInsert, hmsg, if_pos ⟨by omega, by omega⟩, Function.update_apply]
      by_cases hid : id = s.cons.iter + 1
      · subst hid
        rw [if_pos rfl, h13]
        have hz : (if 1 ≤ s.cons.iter + 1 ∧ s.cons.iter + 1 ≤ s.cons.iter then 1 else 0) = 0 := by
          rw [if_neg]
          omega
        rw [hz, if_pos ⟨by omega, by omega⟩]
      · rw [if_neg hid, h13]
        split_ifs <;> omega

/-- Every interleaving step preserves the invariant. -/
theorem inv_step {safe : Bool} {n : Nat} {s s' : Sys} (hn : n < 2 ^ 31)
    (hi : Inv n s) (h : Step safe n s s') : Inv n s' := by
  cases h with
  | prodStep hp => exact inv_pstep hn hi hp
  | consStep hc => exact inv_cstep hn hi hc

/-- Every reachable state satisfies the invariant. -/
theorem inv_reachable {safe : Bool} {n : Nat} {s : Sys} (hn : n < 2 ^ 31)
    (hs : Reachable safe n s) : Inv n s := by
  induction hs with
  | refl => exact inv_init safe n
  | tail _ hbc ih => exact inv_step hn ih hbc

/-- The reconciliation loop computes, for each component, a sum over the
interval of expected ids: the number of ids with counter 0, and the total
truncated excess of each counter over 1. -/
theorem auditTotals_spec (seen : Nat → Nat) (n : Nat) :
    auditTotals n seen
      = (∑ id ∈ Finset.Icc 1 n, (if seen id = 0 then 1 else 0),
         ∑ id ∈ Finset.Icc 1 n, (seen id - 1)) := by
  induction n with
  | zero => simp [auditTotals]
  | succ m ih =>
    rw [auditTotals] at ih ⊢
    rw [show List.range' 1 (m + 1) = List.range' 1 m ++ [1 + m] from by
          simpa using @List.range'_concat 1 1 m,
        List.foldl_append, ih]
    simp only [List.foldl_cons, List.foldl_nil]
    rw [Finset.sum_Icc_succ_top (by omega), Finset.sum_Icc_succ_top (by omega)]
    have hadd : 1 + m = m + 1 := by omega
    rw [hadd]
    refine Prod.ext ?_ ?_
    · simp only
      split_ifs <;> omega
    · simp only
      split_ifs <;> omega

/-- The audit counters stay below 256: they start at 0 and every increment
is taken modulo 256. -/
theorem auditSeen_lt_256 (n : Nat) (ids : List Nat) (id : Nat) :
    auditSeen n ids id < 256 := by
  rw [auditSeen]
  have aux : ∀ (l : List Nat) (seen : Nat → Nat), (∀ k, seen k < 256) →
      ∀ j, l.foldl (auditInsert n) seen j < 256 := by
    intro l
    induction l with
    | nil => intro seen hseen j; exact hseen j
    | cons x xs ih =>
      intro seen hseen j
      rw [List.foldl_cons]
      refine ih _ ?_ j
      intro k
      rw [auditInsert]
      split_ifs with hr
      · rw [Function.update_apply]
        split_ifs with hk
        · exact Nat.mod_lt _ (by omega)
        · exact hseen k
      · exact hseen k
  exact aux ids _ (fun k => by omega) id

/-- The state after the producer's first `sem_wait(empty)` is reachable. -/
theorem reach_w1 : Reachable true 1 w1 :=
  Relation.ReflTransGen.head
    (Step.prodStep (PStep.waitEmpty (initSys true) rfl (by decide) (by decide)))
    Relation.ReflTransGen.refl

/-- The final state of the `n = 1` safe-mode run, along the schedule that
performs the whole Enqueue and then the whole Dequeue, is reachable. -/
theorem reach_w13 : Reachable true 1 w13 := by
  have s2 : Step true 1 w1 w2 :=
    Step.prodStep (PStep.waitMutex w1 rfl (fun _ => by decide))
  have s3 : Step true 1 w2 w3 :=
    Step.prodStep (PStep.write w2 0 rfl)
  have s4 : Step true 1 w3 w4 :=
    Step.prodStep (PStep.advanceHead w3 rfl)
  have s5 : Step true 1 w4 w5 :=
    Step.prodStep (PStep.postMutex w4 rfl)
  have s6 : Step true 1 w5 w6 :=
    Step.prodStep (PStep.postFull w5 rfl)
  have s7 : Step true 1 w6 w7 :=
    Step.consStep (CStep.waitFull w6 rfl (by decide) (by decide))
  have s8 : Step true 1 w7 w8 :=
    Step.consStep (CStep.waitMutex w7 rfl (fun _ => by decide))
  have s9 : Step true 1 w8 w9 :=
    Step.consStep (CStep.read w8 rfl)
  have s10 : Step true 1 w9 w10 :=
    Step.consStep (CStep.advanceTail w9 rfl)
  have s11 : Step true 1 w10 w11 :=
    Step.consStep (CStep.postMutex w10 rfl)
  have s12 : Step true 1 w11 w12 :=
    Step.consStep (CStep.postEmpty w11 rfl)
  have s13 : Step true 1 w12 w13 :=
    Step.consStep (CStep.audit w12 rfl)
  exact Relation.ReflTransGen.trans reach_w1
    (Relation.ReflTransGen.head s2 (Relation.ReflTransGen.head s3
      (Relation.ReflTransGen.head s4 (Relation.ReflTransGen.head s5
        (Relation.ReflTransGen.head s6 (Relation.ReflTransGen.head s7
          (Relation.ReflTransGen.head s8 (Relation.ReflTransGen.head s9
            (Relation.ReflTransGen.head s10 (Relation.ReflTransGen.head s11
              (Relation.ReflTransGen.head s12 (Relation.ReflTransGen.head s13
                Relation.ReflTransGen.refl))))))))))))

/-- C1: in safe mode, for every `N > 0`, in every state of every
interleaving in which the producer has completed its `N` Enqueue operations
and the consumer its `N` Dequeue operations, the reconciliation loop
reports `missing = 0` and `duplicate = 0`. -/
theorem safe_mode_audit_clean (n : Nat) (hpos : 0 < n) (hn : n < 2 ^ 31)
    (s : Sys) (hs : Reachable true n s)
    (hprod : s.prod.iter = n) (hcons : s.cons.iter = n) :
    auditTotals n s.cons.seen = (0, 0) := by
  obtain ⟨h1, h2, h3, h4, h5, h6, h7, h8, h9, h10, h11, h12, h13⟩ :=
    inv_reachable hn hs
  rw [auditTotals_spec]
  refine Prod.ext ?_ ?_ <;> simp only
  · refine Finset.sum_eq_zero ?_
    intro id hid
    rw [Finset.mem_Icc] at hid
    rw [h13 id, hcons, if_pos hid]
    simp
  · refine Finset.sum_eq_zero ?_
    intro id hid
    rw [Finset.mem_Icc] at hid
    rw [h13 id, hcons, if_pos hid]
    simp

/-- Witness for C1 at `n = 1`, on the completed run reaching `w13`. -/
theorem safe_mode_audit_clean_witness :
    auditTotals 1 w13.cons.seen = (0, 0) :=
  safe_mode_audit_clean 1 (by decide) (by decide) w13 reach_w13 rfl rfl

/-- C5: starting from the zero-initialized ring, in every reachable state
of every run of either mode the cursors satisfy
`0 ≤ head < 1024` and `0 ≤ tail < 1024` (`capacity = RING_CAP = 1024`;
the lower bounds hold because the cursors are naturals). -/
theorem cursors_in_range (safe : Bool) (n : Nat) (hn : n < 2 ^ 31)
    (s : Sys) (hs : Reachable safe n s) :
    s.ring.head < 1024 ∧ s.ring.tail < 1024 := by
  obtain ⟨h1, h2, h3, h4, h5, h6, h7, h8, h9, h10, h11, h12, h13⟩ :=
    inv_reachable hn hs
  rw [RING_CAP_eq] at h9 h10
  exact ⟨h9 ▸ Nat.mod_lt _ (by omega), h10 ▸ Nat.mod_lt _ (by omega)⟩

/-- Witness for C5 at the initial state of a safe-mode run with `n = 1`. -/
theorem cursors_in_range_witness :
    (initSys true).ring.head < 1024 ∧ (initSys true).ring.tail < 1024 :=
  cursors_in_range true 1 (by decide) (initSys true) Relation.ReflTransGen.refl

/-- C8 counterexample: one step into the `n = 1` safe-mode run — right
after the producer's `sem_wait(empty)`, before its `sem_post(full)` — the
reachable state `w1` has `slots-free + slots-filled = 1023 ≠ 1024`, so the
claimed equality does not hold at every observation point. -/
theorem sem_sum_counterexample :
    Reachable true 1 w1 ∧ w1.semEmpty + w1.semFull ≠ 1024 :=
  ⟨reach_w1, by decide⟩

/-- C8 amended: `slots-free` is created with initial value `capacity` and
`slots-filled` with initial value 0, and at every observation point
`slots-filled + slots-free ≤ capacity`, with equality whenever neither
process is inside an operation (producer at its loop head, consumer at its
loop head or past its `sem_post(empty)`). -/
theorem sem_occupancy_bounds (safe : Bool) (n : Nat) (hn : n < 2 ^ 31)
    (s : Sys) (hs : Reachable safe n s) :
    (initSys safe).semEmpty = 1024 ∧ (initSys safe).semFull = 0
    ∧ s.semEmpty + s.semFull ≤ 1024
    ∧ (s.prod.pc = 0 → (s.cons.pc = 0 ∨ s.cons.pc = 6) →
        s.semEmpty + s.semFull = 1024) := by
  obtain ⟨h1, h2, h3, h4, h5, h6, h7, h8, h9, h10, h11, h12, h13⟩ :=
    inv_reachable hn hs
  rw [RING_CAP_eq] at h7
  have hm : (if 6 ≤ s.cons.pc then (1 : Nat) else 0)
      ≤ (if 1 ≤ s.cons.pc then 1 else 0) := by
    by_cases hc6 : 6 ≤ s.cons.pc
    · have hc1 : 1 ≤ s.cons.pc := by omega
      simp [hc6, hc1]
    · by_cases hc1 : 1 ≤ s.cons.pc <;> simp [hc6, hc1]
  refine ⟨rfl, rfl, by omega, ?_⟩
  intro hp hc
  rw [hp] at h7
  rcases hc with hc | hc <;> rw [hc] at h7 h8 <;> simp at h7 h8 <;> omega

/-- Witness for C8 (amended) at the initial state of a safe-mode run. -/
theorem sem_occupancy_bounds_witness :
    (initSys true).semEmpty = 1024 ∧ (initSys true).semFull = 0
    ∧ (initSys true).semEmpty + (initSys true).semFull ≤ 1024
    ∧ ((initSys true).prod.pc = 0 →
        ((initSys true).cons.pc = 0 ∨ (initSys true).cons.pc = 6) →
        (initSys true).semEmpty + (initSys true).semFull = 1024) :=
  sem_occupancy_bounds true 1 (by decide) (initSys true) Relation.ReflTransGen.refl

/-- C2: for every `i < n` the `i`-th enqueued record has `tx_id = i + 1`
(so the emitted ids are exactly `1..n` in emission order, no id reused
within a run), `type = (tx_id - 1) % 5`, and
`amount_pence = (1000 + (i % 500)) * 100`, equivalently
`(1000 + ((tx_id - 1) % 500)) * 100`, a deterministic function of the id;
`t` lists the (irrelevant) `now_us()` readings. -/
theorem producer_record_fields (n i : Nat) (t : Nat → Nat)
    (hn : n < 2 ^ 31) (hi : i < n) :
    (List.range n).map (fun j => (mkMsg j (t j)).tx_id) = List.range' 1 n
    ∧ (mkMsg i (t i)).tx_id = i + 1
    ∧ (mkMsg i (t i)).type = ((mkMsg i (t i)).tx_id - 1) % 5
    ∧ (mkMsg i (t i)).amount_pence = (1000 + i % 500) * 100
    ∧ (mkMsg i (t i)).amount_pence
        = (1000 + ((mkMsg i (t i)).tx_id - 1) % 500) * 100 := by
  have hid : ∀ j, j < n → (mkMsg j (t j)).tx_id = j + 1 := by
    intro j hj
    show (j + 1) % U32 = j + 1
    rw [U32]
    apply Nat.mod_eq_of_lt
    omega
  have hamount : (mkMsg i (t i)).amount_pence = (1000 + i % 500) * 100 := by
    show ((1000 + i % 500) * 100) % U64 = (1000 + i % 500) * 100
    rw [U64]
    apply Nat.mod_eq_of_lt
    omega
  have hmap : ∀ m, m ≤ n →
      (List.range m).map (fun j => (mkMsg j (t j)).tx_id) = List.range' 1 m := by
    intro m
    induction m with
    | zero => intro _; rfl
    | succ k ih =>
      intro hk
      rw [List.range_succ, List.map_append, ih (by omega),
          show List.range' 1 (k + 1) = List.range' 1 k ++ [1 + k] from by
            simpa using @List.range'_concat 1 1 k]
      simp only [List.map_cons, List.map_nil]
      rw [hid k (by omega), show 1 + k = k + 1 from by omega]
  refine ⟨hmap n le_rfl, hid i hi, ?_, hamount, ?_⟩
  · rw [hid i hi]
    show i % 5 = (i + 1 - 1) % 5
    omega
  · rw [hid i hi, hamount]
    have : i + 1 - 1 = i := by omega
    rw [this]

/-- Witness for C2 at `n = 3`, `i = 2`, all timestamps 0. -/
theorem producer_record_fields_witness :
    (List.range 3).map (fun j => (mkMsg j 0).tx_id) = List.range' 1 3
    ∧ (mkMsg 2 0).tx_id = 3
    ∧ (mkMsg 2 0).type = ((mkMsg 2 0).tx_id - 1) % 5
    ∧ (mkMsg 2 0).amount_pence = (1000 + 2 % 500) * 100
    ∧ (mkMsg 2 0).amount_pence = (1000 + ((mkMsg 2 0).tx_id - 1) % 500) * 100 :=
  producer_record_fields 3 2 (fun _ => 0) (by decide) (by decide)

/-- C3 counterexample: in the producer loop body the `t_send_us` stamp does
not come before `sem_wait(empty)`; only the latency-metric start `t0` is
read before the wait. -/
theorem send_time_not_before_wait :
    ¬ enqueueOrder.indexOf .stampSendTime < enqueueOrder.indexOf .waitEmpty := by
  decide

/-- C3 amended: `send_time` is stamped after the Enqueue's semaphore wait
(and mutex acquisition) succeeds, immediately before the record is written
into the slot; what is taken before `wait(slots-free)` is only the
latency-metric start reading `t0`. -/
theorem send_time_stamp_position :
    enqueueOrder.indexOf .waitEmpty < enqueueOrder.indexOf .stampSendTime
    ∧ enqueueOrder.indexOf .stampSendTime + 1 = enqueueOrder.indexOf .writeSlot
    ∧ enqueueOrder.indexOf .metricStart < enqueueOrder.indexOf .waitEmpty := by
  decide

/-- C4: after any sequence of `n` consumed ids the auditor reports
`missing` = number of ids in `1..n` whose maintained counter is 0 and
`duplicate` = sum over `1..n` of `max(counter - 1, 0)` (truncated
subtraction on naturals); the totals are computed for every input. -/
theorem audit_report_formulas (n : Nat) (ids : List Nat)
    (hlen : ids.length = n) :
    (auditTotals n (auditSeen n ids)).1
      = ((Finset.Icc 1 n).filter (fun id => auditSeen n ids id = 0)).card
    ∧ (auditTotals n (auditSeen n ids)).2
      = ∑ id ∈ Finset.Icc 1 n, (auditSeen n ids id - 1) := by
  rw [auditTotals_spec]
  refine ⟨?_, rfl⟩
  show (∑ id ∈ Finset.Icc 1 n, if auditSeen n ids id = 0 then 1 else 0)
      = ((Finset.Icc 1 n).filter (fun id => auditSeen n ids id = 0)).card
  exact (Finset.card_filter _ _).symm

/-- Witness for C4 on the duplicated sequence `[2, 2]` with `n = 2`. -/
theorem audit_report_formulas_witness :
    (auditTotals 2 (auditSeen 2 [2, 2])).1
      = ((Finset.Icc 1 2).filter (fun id => auditSeen 2 [2, 2] id = 0)).card
    ∧ (auditTotals 2 (auditSeen 2 [2, 2])).2
      = ∑ id ∈ Finset.Icc 1 2, (auditSeen 2 [2, 2] id - 1) :=
  audit_report_formulas 2 [2, 2] rfl

/-- C6: a consumed record whose id lies outside `[1, n]` leaves the audit
state unchanged while still completing its loop iteration (so it counts as
one of the `n` Dequeue iterations feeding the throughput figure), and the
audit update never touches a counter beyond the allocated range (no
out-of-bounds access to the `calloc(n + 1, 1)` array). -/
theorem out_of_range_id_tolerated (safe : Bool) (n : Nat) (s s' : Sys)
    (seenA : Nat → Nat) (oid k : Nat)
    (hstep : CStep safe n s s') (hpc : s.cons.pc = 6)
    (hid : s.cons.msg.tx_id = 0 ∨ n < s.cons.msg.tx_id) (hk : n < k) :
    s'.cons.seen = s.cons.seen ∧ s'.cons.iter = s.cons.iter + 1
    ∧ auditInsert n seenA oid k = seenA k := by
  have hins : auditInsert n seenA oid k = seenA k := by
    rw [auditInsert]
    split_ifs with hr
    · rw [Function.update_noteq (by omega)]
    · rfl
  cases hstep with
  | waitFull hpc0 _ _ => exfalso; omega
  | waitMutex hpc0 _ => exfalso; omega
  | read hpc0 => exfalso; omega
  | advanceTail hpc0 => exfalso; omega
  | postMutex hpc0 => exfalso; omega
  | postEmpty hpc0 => exfalso; omega
  | audit hpc0 =>
    refine ⟨?_, rfl, hins⟩
    show auditInsert n s.cons.seen s.cons.msg.tx_id = s.cons.seen
    rw [auditInsert, if_neg (by omega)]

/-- Witness for C6: the audit step on the out-of-range id 99 with `n = 1`,
and an `auditInsert` probe at index 7 > n. -/
theorem out_of_range_id_tolerated_witness :
    c6stateNext.cons.seen = c6state.cons.seen
    ∧ c6stateNext.cons.iter = c6state.cons.iter + 1
    ∧ auditInsert 1 (fun _ => 0) 3 7 = 0 :=
  out_of_range_id_tolerated true 1 c6state c6stateNext (fun _ => 0) 3 7
    (CStep.audit c6state rfl) rfl (Or.inr (by decide)) (by decide)

/-- C7: a malformed transaction count (`scanf` not returning 1) or a
non-positive one makes the process report the input error and exit with
code 1, with no shared segment and no semaphore created. -/
theorem invalid_count_rejected (safe : Bool) (input : Option Int)
    (h : input = none ∨ ∃ m : Int, input = some m ∧ m ≤ 0) :
    (mainStart safe input).exitCode = 1
    ∧ (mainStart safe input).reportedInputError = true
    ∧ (mainStart safe input).created = [] := by
  rcases h with h | ⟨m, hm, hm0⟩
  · subst h
    exact ⟨rfl, rfl, rfl⟩
  · subst hm
    simp [mainStart, hm0]

/-- Witness for C7 on the input `0`. -/
theorem invalid_count_rejected_witness :
    (mainStart true (some 0)).exitCode = 1
    ∧ (mainStart true (some 0)).reportedInputError = true
    ∧ (mainStart true (some 0)).created = [] :=
  invalid_count_rejected true (some 0) (Or.inr ⟨0, rfl, by decide⟩)

/-- C9: a producer (Enqueue) step never modifies `tail` and modifies no
slot other than the one at `head`, and a consumer (Dequeue) step never
modifies `head` and never modifies any slot: each cursor is advanced only
by its owning side. -/
theorem cursor_ownership (safe : Bool) (n : Nat) (s s' u u' : Sys) (k : Nat)
    (hp : PStep safe n s s') (hc : CStep safe n u u') (hk : k ≠ s.ring.head) :
    s'.ring.tail = s.ring.tail ∧ s'.ring.buf k = s.ring.buf k
    ∧ u'.ring.head = u.ring.head ∧ u'.ring.buf = u.ring.buf := by
  refine ⟨?_, ?_, ?_, ?_⟩
  · cases hp <;> rfl
  · cases hp with
    | write t hpc =>
      show Function.update s.ring.buf s.ring.head (mkMsg s.prod.iter t) k
          = s.ring.buf k
      rw [Function.update_noteq hk]
    | waitEmpty hpc hit hv => rfl
    | waitMutex hpc hv => rfl
    | advanceHead hpc => rfl
    | postMutex hpc => rfl
    | postFull hpc => rfl
  · cases hc <;> rfl
  · cases hc <;> rfl

/-- Witness for C9: the producer's `sem_wait(empty)` step from the initial
state and the consumer's slot-read step, probing slot 5. -/
theorem cursor_ownership_witness :
    w1.ring.tail = (initSys true).ring.tail
    ∧ w1.ring.buf 5 = (initSys true).ring.buf 5
    ∧ c9consNext.ring.head = c9cons.ring.head
    ∧ c9consNext.ring.buf = c9cons.ring.buf :=
  cursor_ownership true 1 (initSys true) w1 c9cons c9consNext 5
    (PStep.waitEmpty (initSys true) rfl (by decide) (by decide))
    (CStep.read c9cons rfl) (by decide)

set_option maxRecDepth 4000 in
/-- C10: the audit counters are 8-bit and wrap modulo 256: the id 1
observed exactly 256 times (with `n = 1`) ends with counter 0, is reported
missing and contributes nothing to `duplicate`; in general a single id's
contribution to `duplicate`, `max(counter - 1, 0)`, never exceeds 254. -/
theorem audit_counter_wraps (n : Nat) (ids : List Nat) (id : Nat) :
    auditSeen 1 (List.replicate 256 1) 1 = 0
    ∧ auditTotals 1 (auditSeen 1 (List.replicate 256 1)) = (1, 0)
    ∧ auditSeen n ids id - 1 ≤ 254 := by
  refine ⟨?_, ?_, ?_⟩
  · decide
  · decide
  · have h := auditSeen_lt_256 n ids id
    omega

end IPC
